import Mathlib

/-!
# gowiki: a verification development

A shallow embedding of `gowiki.go` (the wiki server: router, handlers, link
renderer and the SQL-backed page store) together with the properties proved
about it.

Conventions of the embedding.

* A Go `string` / `[]byte` is the list of its bytes (`Bytes`); a byte is a `Nat`.
* The global `db` handle is passed explicitly: every function that touches the
  database takes the store state and returns the new one.
* A handler's `http.ResponseWriter` is the list of the response calls made on
  it so far, in order (`http.Error`, `http.Redirect`, template execution);
  `sent` reads off such a list what the standard writer puts on the wire.
* The default `ServeMux` is embedded as of `net/http` before Go 1.22, working
  on `r.URL.Path`: status 400 for the request-target `*`, the redirects to the
  canonical path and to a subtree root, then the longest applicable pattern.
* The two `regexp` values are embedded as syntax trees and run by a small
  backtracking matcher with Go's leftmost-first semantics.
-/

namespace GoWiki

/-! ## Byte strings -/

/-- A Go string or byte slice: the sequence of its bytes. -/
abbrev Bytes := List Nat

/-- The bytes of an ASCII string literal. -/
def bytes (s : String) : Bytes := s.toList.map Char.toNat

/-- Go's `strings.Contains(s, substr)`. -/
def Contains : Bytes → Bytes → Bool
  | [], sub => sub.isPrefixOf []
  | c :: s, sub => sub.isPrefixOf (c :: s) || Contains s sub

/-! ## Regular expressions (package `regexp`) -/

/-- Syntax of the regular expressions the program uses. -/
inductive Regex where
  | eps
  | byte (b : Nat)
  | cls (p : Nat → Bool)
  | seq (r s : Regex)
  | alt (r s : Regex)
  | plus (r : Regex)
  | bol
  | eol
  | cap (n : Nat) (r : Regex)

/-- A matcher thread: absolute position in the input, the unread input and the
capture groups recorded so far (most recent first). -/
structure Thread where
  pos : Nat
  rest : Bytes
  caps : List (Nat × Bytes)
deriving DecidableEq, Repr

/-- Greedy repetition `r+`: run one iteration, then prefer to iterate again
(only after an iteration that consumed input) over stopping. -/
def plusLoop (step : Thread → List Thread) : Nat → Thread → List Thread
  | 0, _ => []
  | n + 1, t => (step t).flatMap fun u =>
      (if u.rest.length < t.rest.length then plusLoop step n u else []) ++ [u]

/-- All ways `r` matches at the thread's position, in backtracking priority
order (the first is the leftmost-first choice). Without the multi-line flag
`^` holds only at offset 0 and `$` only at the end of the input. -/
def run : Regex → Thread → List Thread
  | .eps, t => [t]
  | .byte b, t =>
    match t.rest with
    | c :: cs => if c = b then [{ t with pos := t.pos + 1, rest := cs }] else []
    | [] => []
  | .cls p, t =>
    match t.rest with
    | c :: cs => if p c then [{ t with pos := t.pos + 1, rest := cs }] else []
    | [] => []
  | .seq r s, t => (run r t).flatMap (run s)
  | .alt r s, t => run r t ++ run s t
  | .plus r, t => plusLoop (run r) (t.rest.length + 1) t
  | .bol, t => if t.pos = 0 then [t] else []
  | .eol, t => if t.rest = [] then [t] else []
  | .cap n r, t => (run r t).map fun u =>
      { u with caps := (n, t.rest.take (u.pos - t.pos)) :: u.caps }

/-- A literal string as a regular expression. -/
def lit : Bytes → Regex
  | [] => .eps
  | b :: bs => .seq (.byte b) (lit bs)

/-- Number of capture groups (`Regexp.NumSubexp`). -/
def Regex.numSubexp : Regex → Nat
  | .seq r s => max r.numSubexp s.numSubexp
  | .alt r s => max r.numSubexp s.numSubexp
  | .plus r => r.numSubexp
  | .cap n r => max n r.numSubexp
  | _ => 0

/-- A located match. -/
structure Found where
  skipped : Bytes
  text : Bytes
  caps : List (Nat × Bytes)
  stop : Nat
  rest : Bytes
deriving DecidableEq, Repr

/-- Unanchored search from offset `pos` (where `s` is the input from that offset
on): the leftmost position with a match, and there the first match in priority
order. `skipped` is the input passed over before the match. -/
def search (re : Regex) : Nat → Bytes → Option Found
  | pos, [] =>
    match (run re ⟨pos, [], []⟩).head? with
    | some t => some ⟨[], [], t.caps, t.pos, t.rest⟩
    | none => none
  | pos, c :: s =>
    match (run re ⟨pos, c :: s, []⟩).head? with
    | some t => some ⟨[], (c :: s).take (t.pos - pos), t.caps, t.pos, t.rest⟩
    | none => (search re (pos + 1) s).map fun f => { f with skipped := c :: f.skipped }

/-- Go's `Regexp.FindStringSubmatch`: `none` is the nil slice; otherwise element 0
is the whole match and element `i` the text of group `i` (empty if unset). -/
def FindStringSubmatch (re : Regex) (s : Bytes) : Option (List Bytes) :=
  (search re 0 s).map fun f =>
    f.text :: (List.range re.numSubexp).map fun i => (f.caps.lookup (i + 1)).getD []

/-- The loop of `Regexp.replaceAll`: `last` is `lastMatchEnd`, `pos` is `searchPos`
and `s` the input from `searchPos` on. An empty match is not replaced directly
after another match, and the search then moves on by one byte. -/
def replaceAll (re : Regex) (repl : Bytes → Bytes) : Nat → Nat → Nat → Bytes → Bytes
  | 0, _, _, s => s
  | fuel + 1, last, pos, s =>
    match search re pos s with
    | none => s
    | some f =>
      let out := f.skipped ++
        (if last < f.stop ∨ f.stop - f.text.length = 0 then repl f.text else [])
      if f.text = [] then
        match f.rest with
        | [] => out
        | c :: cs => out ++ c :: replaceAll re repl fuel f.stop (f.stop + 1) cs
      else out ++ replaceAll re repl fuel f.stop f.stop f.rest

/-- Go's `Regexp.ReplaceAllFunc(src, repl)`. -/
def ReplaceAllFunc (re : Regex) (src : Bytes) (repl : Bytes → Bytes) : Bytes :=
  replaceAll re repl (src.length + 1) 0 0 src

/-- The character class `[a-zA-Z0-9]`. -/
def isAlnum (c : Nat) : Bool :=
  (97 ≤ c && c ≤ 122) || (65 ≤ c && c ≤ 90) || (48 ≤ c && c ≤ 57)

/-- The `validPath` regexp of the program: `^/(edit|save|view)/([a-zA-Z0-9]+)$`. -/
def validPath : Regex :=
  .seq .bol (.seq (.byte 47)
    (.seq (.cap 1 (.alt (lit (bytes "edit")) (.alt (lit (bytes "save")) (lit (bytes "view")))))
      (.seq (.byte 47) (.seq (.cap 2 (.plus (.cls isAlnum))) .eol))))

/-- The `interpageLink` regexp of the program: `\[[a-zA-Z0-9]+\]`. -/
def interpageLink : Regex :=
  .seq (.byte 91) (.seq (.plus (.cls isAlnum)) (.byte 93))

/-! ## HTML escaping (package `html/template`) -/

/-- What `template.HTMLEscape` writes for one byte. -/
def htmlEscapeByte (c : Nat) : Bytes :=
  if c = 0 then [239, 191, 189]            -- U+FFFD
  else if c = 34 then [38, 35, 51, 52, 59]  -- &#34;
  else if c = 39 then [38, 35, 51, 57, 59]  -- &#39;
  else if c = 38 then [38, 97, 109, 112, 59] -- &amp;
  else if c = 60 then [38, 108, 116, 59]    -- &lt;
  else if c = 62 then [38, 103, 116, 59]    -- &gt;
  else [c]

/-- Go's `template.HTMLEscapeString`. -/
def HTMLEscapeString (s : Bytes) : Bytes := s.flatMap htmlEscapeByte

/-! ## The page store (package `database/sql` over the `pages` table) -/

/-- Errors the database layer reports. -/
inductive SqlError where
  | duplicateEntry (key : Bytes)
  | noRows
  | unavailable
deriving DecidableEq, Repr

/-- The text of an error (`err.Error()`); byte 39 is the single quote. -/
def SqlError.Error : SqlError → Bytes
  | .duplicateEntry k =>
    bytes "Error 1062: Duplicate entry " ++ [39] ++ k ++ [39] ++ bytes " for key " ++
      [39] ++ bytes "title" ++ [39]
  | .noRows => bytes "sql: no rows in result set"
  | .unavailable => bytes "dial tcp 127.0.0.1:3306: connect: connection refused"

/-- State behind the global `db` handle: the rows of `pages(title UNIQUE, body)`
and, for the coming driver calls in order, whether the call fails because the
backend is unavailable (`true`); once the list is used up no call fails. -/
structure DB where
  rows : List (Bytes × Bytes)
  faults : List Bool
deriving DecidableEq, Repr

/-- Consume the outcome of the next driver call. -/
def DB.next (db : DB) : Bool × DB :=
  match db.faults with
  | [] => (false, db)
  | f :: fs => (f, { db with faults := fs })

/-- The call `db.Prepare(...)`: fails only when the backend is unavailable. -/
def Prepare (db : DB) : Option SqlError × DB :=
  match db.next with
  | (true, db1) => (some .unavailable, db1)
  | (false, db1) => (none, db1)

/-- Executing `INSERT pages SET title=?,body=?`: rejected when a row with the
title exists (unique key), otherwise the row is added. -/
def ExecInsert (db : DB) (title body : Bytes) : Option SqlError × DB :=
  match db.next with
  | (true, db1) => (some .unavailable, db1)
  | (false, db1) =>
    if db1.rows.any (fun row => row.1 = title) then (some (.duplicateEntry title), db1)
    else (none, { db1 with rows := db1.rows ++ [(title, body)] })

/-- Executing `UPDATE pages SET body=? WHERE title=?`. -/
def ExecUpdate (db : DB) (body title : Bytes) : Option SqlError × DB :=
  match db.next with
  | (true, db1) => (some .unavailable, db1)
  | (false, db1) =>
    (none, { db1 with rows := db1.rows.map fun row => if row.1 = title then (row.1, body) else row })

/-- The call `db.QueryRow("SELECT body FROM pages WHERE title=?", title).Scan(&body)`. -/
def QueryRowScan (db : DB) (title : Bytes) : Except SqlError Bytes × DB :=
  match db.next with
  | (true, db1) => (.error .unavailable, db1)
  | (false, db1) =>
    match db1.rows.find? (fun row => row.1 = title) with
    | some row => (.ok row.2, db1)
    | none => (.error .noRows, db1)

/-- The struct `Page`. -/
structure Page where
  Title : Bytes
  Body : Bytes
  DisplayBody : Bytes
deriving DecidableEq, Repr

/-- The method `(p *Page) save()`. The `err` declared by `updateStmt, err :=` lives
in the inner block only, so the final `return err` of the error branch returns
the error of the INSERT. -/
def Page.save (p : Page) (db : DB) : Option SqlError × DB :=
  match Prepare db with
  | (some err, db1) => (some err, db1)
  | (none, db1) =>
    match ExecInsert db1 p.Title p.Body with
    | (some err, db2) =>
      if Contains err.Error (bytes "Duplicate entry") then
        match Prepare db2 with
        | (some err2, db3) => (some err2, db3)
        | (none, db3) =>
          match ExecUpdate db3 p.Body p.Title with
          | (some err2, db4) => (some err2, db4)
          | (none, db4) => (some err, db4)
      else (some err, db2)
    | (none, db2) => (none, db2)

/-- The function `loadPage`. -/
def loadPage (db : DB) (title : Bytes) : Except SqlError Page × DB :=
  match QueryRowScan db title with
  | (.error err, db1) => (.error err, db1)
  | (.ok body, db1) => (.ok { Title := title, Body := body, DisplayBody := [] }, db1)

/-! ## HTTP layer (package `net/http`) -/

/-- A response call made on the `http.ResponseWriter`. -/
inductive Effect where
  | error (msg : Bytes) (code : Nat)
  | redirect (url : Bytes) (code : Nat)
  | execute (name : Bytes) (p : Page)
deriving DecidableEq, Repr

/-- The response calls made so far, in order. -/
abbrev ResponseWriter := List Effect

/-- The parts of `http.Request` the program reads. -/
structure Request where
  Path : Bytes
  Form : List (Bytes × Bytes)
deriving DecidableEq, Repr

/-- The call `r.FormValue(key)`. -/
def Request.FormValue (r : Request) (key : Bytes) : Bytes :=
  (r.Form.lookup key).getD []

/-- The call `http.Error(w, msg, code)`. -/
def Error (w : ResponseWriter) (msg : Bytes) (code : Nat) : ResponseWriter :=
  w ++ [.error msg code]

/-- The call `http.NotFound(w, r)`. -/
def NotFound (w : ResponseWriter) (_r : Request) : ResponseWriter :=
  Error w (bytes "404 page not found") 404

/-- The call `http.Redirect(w, r, url, code)`. -/
def Redirect (w : ResponseWriter) (_r : Request) (url : Bytes) (code : Nat) : ResponseWriter :=
  w ++ [.redirect url code]

/-- The parsed template set: executing template `name` on a page either succeeds
(`none`) or reports an error text. -/
abbrev Templates := Bytes → Page → Option Bytes

/-- A handler: `http.HandlerFunc`, with the store passed explicitly. -/
abbrev HandlerFunc := ResponseWriter → Request → DB → ResponseWriter × DB

/-- The function `renderTemplate`. -/
def renderTemplate (tm : Templates) (w : ResponseWriter) (tmpl : Bytes) (p : Page) :
    ResponseWriter :=
  let name := tmpl ++ bytes ".html"
  match tm name p with
  | some err => Error (w ++ [.execute name p]) err 500
  | none => w ++ [.execute name p]

/-- The function `makeHandler`. -/
def makeHandler (fn : ResponseWriter → Request → Bytes → DB → ResponseWriter × DB) :
    HandlerFunc :=
  fun w r db =>
    match FindStringSubmatch validPath r.Path with
    | none => (NotFound w r, db)
    | some m => fn w r (m.getD 2 []) db

/-- The anchor `<a href="/view/T">T</a>`; byte 34 is the double quote. -/
def anchor (t : Bytes) : Bytes :=
  bytes "<a href=" ++ [34] ++ bytes "/view/" ++ t ++ [34] ++ bytes ">" ++ t ++ bytes "</a>"

/-- The function literal `viewHandler` passes to `ReplaceAllFunc`: the anchor for
`input[1 : len(input)-1]`. -/
def linkRepl (input : Bytes) : Bytes := anchor ((input.drop 1).take (input.length - 1 - 1))

/-- The display body `viewHandler` computes from a page body (lines 130 to 134):
escape, then replace every `interpageLink` match by what `linkRepl` returns. -/
def displayBody (body : Bytes) : Bytes :=
  let escapedBody := HTMLEscapeString body
  ReplaceAllFunc interpageLink escapedBody linkRepl

/-- The function `viewHandler`. -/
def viewHandler (tm : Templates) (w : ResponseWriter) (r : Request) (title : Bytes) (db : DB) :
    ResponseWriter × DB :=
  match loadPage db title with
  | (.error _, db1) => (Redirect w r (bytes "/edit/" ++ title) 302, db1)
  | (.ok p, db1) =>
    (renderTemplate tm w (bytes "view") { p with DisplayBody := displayBody p.Body }, db1)

/-- The function `editHandler`. -/
def editHandler (tm : Templates) (w : ResponseWriter) (r : Request) (title : Bytes) (db : DB) :
    ResponseWriter × DB :=
  let _ := r
  match loadPage db title with
  | (.error _, db1) =>
    (renderTemplate tm w (bytes "edit") { Title := title, Body := [], DisplayBody := [] }, db1)
  | (.ok p, db1) => (renderTemplate tm w (bytes "edit") p, db1)

/-- The function `saveHandler`. There is no `return` after `http.Error`, so the
redirect follows in either case. -/
def saveHandler (w : ResponseWriter) (r : Request) (title : Bytes) (db : DB) :
    ResponseWriter × DB :=
  let body := r.FormValue (bytes "body")
  let p : Page := { Title := title, Body := body, DisplayBody := [] }
  match p.save db with
  | (some err, db1) =>
    (Redirect (Error w err.Error 500) r (bytes "/view/" ++ title) 302, db1)
  | (none, db1) => (Redirect w r (bytes "/view/" ++ title) 302, db1)

/-- What the standard `net/http` response writer sends for the calls a handler
made on it. -/
structure Sent where
  status : Nat
  redirect : Option Bytes
  errorText : Bytes
deriving DecidableEq, Repr

/-- The text the `http.Error` calls of a log write to the body: each writes its
message and a newline, also when the header was written before. -/
def errorTexts : ResponseWriter → Bytes
  | [] => []
  | .error msg _ :: w => msg ++ [10] ++ errorTexts w
  | _ :: w => errorTexts w

/-- The response sent for a call log on a fresh writer. The first call writes the
header: `WriteHeader` takes effect once and the header map is copied then, so the
status of a later call is ignored and a `Location` set later is not sent; after
an `http.Error` the content type is set, so a later `http.Redirect` writes no body.
`redirect` is the target of the `http.Redirect` call that wrote the header, if one
did. A log that starts with a template execution is left open (`none`), the
template output not being modelled; so is the empty log. -/
def sent : ResponseWriter → Option Sent
  | [] => none
  | .error msg code :: w => some ⟨code, none, msg ++ [10] ++ errorTexts w⟩
  | .redirect url code :: w => some ⟨code, some url, errorTexts w⟩
  | .execute _ _ :: _ => none

/-! ## Vocabulary of the properties -/

/-- A bracket token at the head of `s`: `[` (91), a non-empty maximal run `t` of
letters and digits, `]` (93); the result is `t` and what follows the token. -/
def tokAt : Bytes → Option (Bytes × Bytes)
  | [] => none
  | b :: s =>
    if b = 91 then
      match s.dropWhile isAlnum with
      | [] => none
      | d :: c =>
        if d = 93 then
          (if s.takeWhile isAlnum = [] then none else some (s.takeWhile isAlnum, c))
        else none
    else none

/-- Left-to-right replacement of bracket tokens by anchors, the closed form of
what `ReplaceAllFunc interpageLink · linkRepl` computes (see
`replaceAll_interpageLink`). -/
def linkify (s : Bytes) : Bytes :=
  match h : tokAt s with
  | some (t, c) => anchor t ++ linkify c
  | none =>
    match s with
    | [] => []
    | x :: s' => x :: linkify s'
termination_by s.length
decreasing_by
  · cases s with
    | nil => simp [tokAt] at h
    | cons b s =>
      have hle := (List.dropWhile_suffix (l := s) isAlnum).length_le
      simp only [tokAt] at h
      split at h
      · split at h
        · simp at h
        · rename_i d c' hd
          split at h
          · split at h
            · simp at h
            · simp only [Option.some.injEq, Prod.mk.injEq] at h
              rw [hd] at hle
              simp only [List.length_cons] at hle ⊢
              rw [← h.2]
              omega
          · simp at h
      · simp at h
  · simp

/-- A non-empty string of ASCII letters and digits. -/
def isToken (t : Bytes) : Prop := t ≠ [] ∧ ∀ x ∈ t, isAlnum x = true

/-- The string contains a bracket token: `[` (91), one or more letters or digits,
`]` (93). -/
def hasToken (s : Bytes) : Prop := ∃ a t c, s = a ++ 91 :: (t ++ 93 :: c) ∧ isToken t

/-- The bytes that delimit markup and attribute values: `<`, `>`, `"` and `'`. -/
def isMarkup (x : Nat) : Bool := x == 60 || x == 62 || x == 34 || x == 39

/-- A piece of a rendered body: text copied from the escaped body, or an anchor
built by the renderer from a token. -/
inductive Seg where
  | text (s : Bytes)
  | link (t : Bytes)

/-- The bytes of a piece. -/
def Seg.out : Seg → Bytes
  | .text s => s
  | .link t => anchor t

/-- A well-formed piece: text without markup bytes, or the anchor of a token. -/
def Seg.ok : Seg → Prop
  | .text s => ∀ x ∈ s, isMarkup x = false
  | .link t => isToken t

/-- The shape `"/" + action + "/" + title` with a known action and a token title. -/
def validShape (p title : Bytes) : Prop :=
  ∃ action, (action = bytes "edit" ∨ action = bytes "save" ∨ action = bytes "view") ∧
    p = bytes "/" ++ action ++ bytes "/" ++ title ∧ isToken title

/-- The tail `/([a-zA-Z0-9]+)$` of `validPath`. -/
def validPathTail : Regex := .seq (.byte 47) (.seq (.cap 2 (.plus (.cls isAlnum))) .eol)

/-- The group `(edit|save|view)` of `validPath`. -/
def validPathAction : Regex :=
  .cap 1 (.alt (lit (bytes "edit")) (.alt (lit (bytes "save")) (lit (bytes "view"))))

/-- No coming driver call fails. -/
def DB.healthy (db : DB) : Prop := ∀ f ∈ db.faults, f = false

/-- A template set whose templates execute without error. -/
def plainTemplates : Templates := fun _ _ => none

/-! ## The matcher on the two patterns of the program -/

theorem plusLoop_step_flatMap (p : Nat → Bool) (step k : Thread → List Thread)
    (hnil : ∀ pos caps, step ⟨pos, [], caps⟩ = [])
    (hcons : ∀ pos c cs caps, step ⟨pos, c :: cs, caps⟩ =
      if p c = true then [⟨pos + 1, cs, caps⟩] else [])
    (hk : ∀ pos c cs caps, p c = true → k ⟨pos, c :: cs, caps⟩ = []) :
    ∀ n pos s caps, s.length < n →
      (plusLoop step n ⟨pos, s, caps⟩).flatMap k =
        if s.takeWhile p = [] then []
        else k ⟨pos + (s.takeWhile p).length, s.dropWhile p, caps⟩ := by
  intro n
  induction n with
  | zero => intro pos s caps h; omega
  | succ n ih =>
    intro pos s caps h
    cases s with
    | nil => simp [plusLoop, hnil]
    | cons c cs =>
      by_cases hc : p c = true
      · have hlen : cs.length < n := by simp at h; omega
        have := ih (pos + 1) cs caps hlen
        simp only [plusLoop, hcons, hc, if_true, List.flatMap_cons, List.flatMap_nil,
          List.append_nil, List.length_cons, Nat.lt_succ_self, List.flatMap_append, this]
        cases cs with
        | nil => simp [List.takeWhile, List.dropWhile, hc]
        | cons d ds =>
          by_cases hd : p d = true
          · simp [List.takeWhile, List.dropWhile, hc, hd, hk _ d ds caps hd, Nat.add_assoc, Nat.add_comm]
          · simp [List.takeWhile, List.dropWhile, hc, hd]
      · simp [plusLoop, hcons, hc, List.takeWhile]

theorem plusLoop_cls_flatMap (p : Nat → Bool) (k : Thread → List Thread)
    (hk : ∀ pos c cs caps, p c = true → k ⟨pos, c :: cs, caps⟩ = [])
    (n pos : Nat) (s : Bytes) (caps : List (Nat × Bytes)) (h : s.length < n) :
      (plusLoop (run (.cls p)) n ⟨pos, s, caps⟩).flatMap k =
        if s.takeWhile p = [] then []
        else k ⟨pos + (s.takeWhile p).length, s.dropWhile p, caps⟩ :=
  plusLoop_step_flatMap p (run (.cls p)) k (fun _ _ => rfl) (fun _ _ _ _ => rfl) hk n pos s caps h

theorem run_byte_cons (b pos c : Nat) (cs : Bytes) (caps : List (Nat × Bytes)) :
    run (.byte b) ⟨pos, c :: cs, caps⟩ = if c = b then [⟨pos + 1, cs, caps⟩] else [] := rfl

theorem run_byte_nil (b pos : Nat) (caps : List (Nat × Bytes)) :
    run (.byte b) ⟨pos, [], caps⟩ = [] := rfl

theorem run_seq (r s : Regex) (t : Thread) : run (.seq r s) t = (run r t).flatMap (run s) := rfl

theorem run_plus (r : Regex) (t : Thread) :
    run (.plus r) t = plusLoop (run r) (t.rest.length + 1) t := rfl

theorem run_interpageLink (pos : Nat) (s : Bytes) (caps : List (Nat × Bytes)) :
    run interpageLink ⟨pos, s, caps⟩ =
      match tokAt s with
      | some (t, c) => [⟨pos + (t.length + 2), c, caps⟩]
      | none => [] := by
  cases s with
  | nil => simp [interpageLink, run_seq, run_byte_nil, tokAt]
  | cons b s =>
    by_cases hb : b = 91
    · subst hb
      have hk : ∀ pos c cs caps, isAlnum c = true →
          run (.byte 93) ⟨pos, c :: cs, caps⟩ = [] := by
        intro pos c cs caps hc
        have : c ≠ 93 := by rintro rfl; simp [isAlnum] at hc
        simp [run_byte_cons, this]
      have := plusLoop_cls_flatMap isAlnum (run (.byte 93)) hk (s.length + 1) (pos + 1) s caps
        (Nat.lt_succ_self _)
      rw [interpageLink, run_seq, run_byte_cons, if_pos rfl, List.flatMap_cons, List.flatMap_nil,
        List.append_nil, run_seq, run_plus, this]
      simp only [tokAt, if_true]
      by_cases ht : s.takeWhile isAlnum = []
      · simp only [ht, if_true]
        cases s.dropWhile isAlnum with
        | nil => simp
        | cons d c => by_cases hd : d = 93 <;> simp [hd]
      · simp only [ht, if_false]
        cases s.dropWhile isAlnum with
        | nil => simp [run_byte_nil]
        | cons d c =>
          by_cases hd : d = 93
          · simp [run_byte_cons, hd]; omega
          · simp [run_byte_cons, hd]
    · simp [interpageLink, run_seq, run_byte_cons, tokAt, hb]

theorem tokAt_eq_some_iff (s t c : Bytes) :
    tokAt s = some (t, c) ↔ s = 91 :: (t ++ 93 :: c) ∧ t ≠ [] ∧ ∀ x ∈ t, isAlnum x = true := by
  constructor
  · intro h
    cases s with
    | nil => simp [tokAt] at h
    | cons b s =>
      simp only [tokAt] at h
      split at h
      · rename_i hb
        split at h
        · simp at h
        · rename_i d c' hd
          split at h
          · rename_i hd93
            split at h
            · simp at h
            · rename_i hne
              simp only [Option.some.injEq, Prod.mk.injEq] at h
              obtain ⟨h1, h2⟩ := h
              subst h1 h2 hb hd93
              refine ⟨?_, hne, ?_⟩
              · have := List.takeWhile_append_dropWhile isAlnum s
                rw [hd] at this
                simp [this]
              · intro x hx
                exact List.mem_takeWhile_imp hx
          · simp at h
      · simp at h
  · rintro ⟨rfl, hne, hall⟩
    have h93 : isAlnum 93 = false := by decide
    have htw : List.takeWhile isAlnum (t ++ 93 :: c) = t := by
      rw [List.takeWhile_append_of_pos hall]
      simp [List.takeWhile, h93]
    have hdw : List.dropWhile isAlnum (t ++ 93 :: c) = 93 :: c := by
      rw [List.dropWhile_append_of_pos hall]
      simp [List.dropWhile, h93]
    simp [tokAt, htw, hdw, hne]

theorem linkify_nil : linkify [] = [] := by
  rw [linkify]; simp [tokAt]

theorem linkify_tok {s t c : Bytes} (h : tokAt s = some (t, c)) :
    linkify s = anchor t ++ linkify c := by
  rw [linkify]
  split
  · rename_i t2 c2 h2
    rw [h] at h2
    simp only [Option.some.injEq, Prod.mk.injEq] at h2
    rw [h2.1, h2.2]
  · rename_i h2
    rw [h] at h2
    simp at h2

theorem linkify_cons {x : Nat} {s : Bytes} (h : tokAt (x :: s) = none) :
    linkify (x :: s) = x :: linkify s := by
  rw [linkify]
  split
  · rename_i t2 c2 h2
    rw [h] at h2
    simp at h2
  · rfl

theorem search_nil (re : Regex) (pos : Nat) :
    search re pos [] =
      match (run re ⟨pos, [], []⟩).head? with
      | some t => some ⟨[], [], t.caps, t.pos, t.rest⟩
      | none => none := rfl

theorem search_cons (re : Regex) (pos c : Nat) (s : Bytes) :
    search re pos (c :: s) =
      match (run re ⟨pos, c :: s, []⟩).head? with
      | some t => some ⟨[], (c :: s).take (t.pos - pos), t.caps, t.pos, t.rest⟩
      | none => (search re (pos + 1) s).map fun f => { f with skipped := c :: f.skipped } := rfl

theorem linkRepl_tok (t : Bytes) : linkRepl (91 :: (t ++ [93])) = anchor t := by
  unfold linkRepl
  congr 1
  simp

theorem search_interpageLink_tok {s t c : Bytes} (pos : Nat) (h : tokAt s = some (t, c)) :
    search interpageLink pos s =
      some ⟨[], 91 :: (t ++ [93]), [], pos + (t.length + 2), c⟩ := by
  have hs := (tokAt_eq_some_iff s t c).1 h
  obtain ⟨rfl, -, -⟩ := hs
  rw [search_cons, run_interpageLink, h]
  have htake : List.take (t.length + 1) (t ++ 93 :: c) = t ++ [93] := by
    have : t ++ 93 :: c = (t ++ [93]) ++ c := by simp
    rw [this]
    exact List.take_left' (by simp)
  simp [htake]

theorem search_interpageLink_cons {x : Nat} {s : Bytes} (pos : Nat) (h : tokAt (x :: s) = none) :
    search interpageLink pos (x :: s) =
      (search interpageLink (pos + 1) s).map fun f => { f with skipped := x :: f.skipped } := by
  rw [search_cons, run_interpageLink, h]
  rfl

theorem search_interpageLink_nil (pos : Nat) : search interpageLink pos [] = none := by
  rw [search_nil, run_interpageLink]
  simp [tokAt]

theorem replaceAll_zero_nil (re : Regex) (repl : Bytes → Bytes) (last pos : Nat) (fuel : Nat) :
    search re pos [] = none → replaceAll re repl fuel last pos [] = [] := by
  intro h
  cases fuel with
  | zero => rfl
  | succ n => simp [replaceAll, h]

theorem replaceAll_interpageLink :
    ∀ n (s : Bytes), s.length ≤ n → ∀ fuel last pos, s.length < fuel → last ≤ pos →
      replaceAll interpageLink linkRepl fuel last pos s = linkify s := by
  intro n
  induction n with
  | zero =>
    intro s hs fuel last pos hf hl
    have : s = [] := List.length_eq_zero.1 (Nat.le_zero.1 hs)
    subst this
    rw [linkify_nil]
    exact replaceAll_zero_nil _ _ _ _ _ (search_interpageLink_nil pos)
  | succ n ih =>
    intro s
    induction s with
    | nil =>
      intro hs fuel last pos hf hl
      rw [linkify_nil]
      exact replaceAll_zero_nil _ _ _ _ _ (search_interpageLink_nil pos)
    | cons x s ihs =>
      intro hs fuel last pos hf hl
      cases fuel with
      | zero => simp at hf
      | succ fuel =>
        cases htok : tokAt (x :: s) with
        | some tc =>
          obtain ⟨t, c⟩ := tc
          have hs2 := (tokAt_eq_some_iff _ t c).1 htok
          have hlen : (x :: s).length = t.length + 2 + c.length := by
            rw [hs2.1]; simp; omega
          have hc : c.length ≤ n := by rw [hlen] at hs; omega
          have hcf : c.length < fuel := by rw [hlen] at hf; omega
          rw [linkify_tok htok, replaceAll, search_interpageLink_tok pos htok]
          have hlt : last < pos + (t.length + 2) := by omega
          simp only [List.nil_append, hlt, true_or, if_true]
          rw [if_neg (by simp)]
          rw [ih c hc fuel _ _ hcf (Nat.le_refl _), linkRepl_tok]
        | none =>
          rw [linkify_cons htok, replaceAll, search_interpageLink_cons pos htok]
          have hs' : s.length ≤ n + 1 := by simp at hs; omega
          have hf' : s.length < fuel + 1 := by simp at hf; omega
          have := ihs hs' (fuel + 1) last (pos + 1) hf' (by omega)
          rw [replaceAll] at this
          cases hsr : search interpageLink (pos + 1) s with
          | none =>
            rw [hsr] at this
            simp only at this
            show x :: s = x :: linkify s
            rw [← this]
          | some f =>
            rw [hsr] at this
            simp only [Option.map_some'] at this ⊢
            by_cases hft : f.text = []
            · simp only [hft, if_true] at this ⊢
              cases hfr : f.rest with
              | nil => rw [hfr] at this; simp only at this ⊢; simp [← this]
              | cons d ds => rw [hfr] at this; simp only at this ⊢; simp [← this]
            · simp only [hft, if_false] at this ⊢
              simp [← this]

theorem displayBody_eq (body : Bytes) : displayBody body = linkify (HTMLEscapeString body) := by
  unfold displayBody ReplaceAllFunc
  exact replaceAll_interpageLink _ _ (Nat.le_refl _) _ _ _ (Nat.lt_succ_self _) (Nat.le_refl _)

/-! ## Bracket tokens and the renderer -/

theorem tokAt_token (t c : Bytes) (ht : isToken t) : tokAt (91 :: (t ++ 93 :: c)) = some (t, c) :=
  (tokAt_eq_some_iff _ t c).2 ⟨rfl, ht.1, ht.2⟩

theorem tokAt_none_of_ne {x : Nat} (s : Bytes) (h : x ≠ 91) : tokAt (x :: s) = none := by
  simp [tokAt, h]

theorem hasToken_nil : ¬ hasToken [] := by
  rintro ⟨a, t, c, h, -⟩
  cases a <;> simp at h

theorem hasToken_cons (x : Nat) (s : Bytes) :
    hasToken (x :: s) ↔ (∃ t c, tokAt (x :: s) = some (t, c)) ∨ hasToken s := by
  constructor
  · rintro ⟨a, t, c, h, ht⟩
    cases a with
    | nil =>
      left
      refine ⟨t, c, ?_⟩
      rw [h]
      exact tokAt_token t c ht
    | cons y a =>
      right
      simp only [List.cons_append, List.cons.injEq] at h
      exact ⟨a, t, c, h.2, ht⟩
  · rintro (⟨t, c, h⟩ | ⟨a, t, c, h, ht⟩)
    · obtain ⟨h1, h2, h3⟩ := (tokAt_eq_some_iff _ t c).1 h
      exact ⟨[], t, c, by simpa using h1, h2, h3⟩
    · exact ⟨x :: a, t, c, by simp [h], ht⟩

theorem hasToken_append_left {p s : Bytes} (hp : 91 ∉ p) : hasToken (p ++ s) → hasToken s := by
  induction p with
  | nil => simp
  | cons x p ih =>
    intro h
    rw [List.cons_append, hasToken_cons] at h
    have hx : x ≠ 91 := fun e => hp (by simp [e])
    rcases h with ⟨t, c, h⟩ | h
    · rw [tokAt_none_of_ne _ hx] at h; simp at h
    · exact ih (fun hm => hp (List.mem_cons_of_mem _ hm)) h

theorem not_mem_anchor {t : Bytes} (ht : ∀ x ∈ t, isAlnum x = true) : 91 ∉ anchor t := by
  have h91 : isAlnum 91 = false := by decide
  have ht91 : 91 ∉ t := fun hm => by have := ht 91 hm; rw [h91] at this; cases this
  simp [anchor, bytes, ht91]

theorem anchor_head (t : Bytes) : ∃ r, anchor t = 60 :: r := ⟨_, rfl⟩

/-- If the output of `linkify` starts with letters and digits followed by `]`, so does its input. -/
theorem linkify_head_run (t : Bytes) : ∀ (s c : Bytes), (∀ x ∈ t, isAlnum x = true) →
    linkify s = t ++ 93 :: c → ∃ c2, s = t ++ 93 :: c2 := by
  induction t with
  | nil =>
    intro s c _ h
    cases s with
    | nil => rw [linkify_nil] at h; simp at h
    | cons y s =>
      cases htok : tokAt (y :: s) with
      | some tc =>
        obtain ⟨t2, c2⟩ := tc
        obtain ⟨r, hr⟩ := anchor_head t2
        rw [linkify_tok htok, hr] at h
        simp at h
      | none =>
        rw [linkify_cons htok] at h
        simp only [List.nil_append, List.cons.injEq] at h
        exact ⟨s, by simp [h.1]⟩
  | cons z t ih =>
    intro s c hz h
    have hz60 : z ≠ 60 := by
      rintro rfl
      have := hz 60 (by simp)
      simp [isAlnum] at this
    cases s with
    | nil => rw [linkify_nil] at h; simp at h
    | cons y s =>
      cases htok : tokAt (y :: s) with
      | some tc =>
        obtain ⟨t2, c2⟩ := tc
        obtain ⟨r, hr⟩ := anchor_head t2
        rw [linkify_tok htok, hr] at h
        simp only [List.cons_append, List.cons.injEq] at h
        exact absurd h.1.symm hz60
      | none =>
        rw [linkify_cons htok] at h
        simp only [List.cons_append, List.cons.injEq] at h
        obtain ⟨c2, hc2⟩ := ih s c (fun x hx => hz x (List.mem_cons_of_mem _ hx)) h.2
        exact ⟨c2, by simp [h.1, hc2]⟩

theorem linkify_no_token : ∀ n (s : Bytes), s.length ≤ n → ¬ hasToken (linkify s) := by
  intro n
  induction n with
  | zero =>
    intro s hs
    have : s = [] := List.length_eq_zero.1 (Nat.le_zero.1 hs)
    subst this
    rw [linkify_nil]; exact hasToken_nil
  | succ n ih =>
    intro s
    induction s with
    | nil => intro _; rw [linkify_nil]; exact hasToken_nil
    | cons x s ihs =>
      intro hs
      cases htok : tokAt (x :: s) with
      | some tc =>
        obtain ⟨t, c⟩ := tc
        obtain ⟨h1, h2, h3⟩ := (tokAt_eq_some_iff _ t c).1 htok
        have hc : c.length ≤ n := by
          have := congrArg List.length h1
          simp at this hs
          omega
        rw [linkify_tok htok]
        exact fun h => ih c hc (hasToken_append_left (not_mem_anchor h3) h)
      | none =>
        rw [linkify_cons htok, hasToken_cons]
        rintro (⟨t, c, h⟩ | h)
        · obtain ⟨h1, h2, h3⟩ := (tokAt_eq_some_iff _ t c).1 h
          simp only [List.cons.injEq] at h1
          obtain ⟨c2, hc2⟩ := linkify_head_run t s c h3 h1.2
          rw [h1.1, hc2, tokAt_token t c2 ⟨h2, h3⟩] at htok
          cases htok
        · exact ihs (by simp at hs; omega) h

/-! ## Escaping -/

theorem run_cap (n : Nat) (r : Regex) (t : Thread) :
    run (.cap n r) t =
      (run r t).map fun u => { u with caps := (n, t.rest.take (u.pos - t.pos)) :: u.caps } := rfl

theorem run_alt (r s : Regex) (t : Thread) : run (.alt r s) t = run r t ++ run s t := rfl

theorem run_eol (t : Thread) : run .eol t = if t.rest = [] then [t] else [] := rfl

theorem run_bol (t : Thread) : run .bol t = if t.pos = 0 then [t] else [] := rfl

theorem validPath_eq :
    validPath = .seq .bol (.seq (.byte 47) (.seq validPathAction validPathTail)) := rfl

theorem run_validPathTail (pos : Nat) (s : Bytes) (caps : List (Nat × Bytes)) :
    run validPathTail ⟨pos, s, caps⟩ =
      match s with
      | [] => []
      | c :: title =>
        if c = 47 ∧ title ≠ [] ∧ title.dropWhile isAlnum = [] then
          [⟨pos + 1 + title.length, [], (2, title) :: caps⟩]
        else [] := by
  cases s with
  | nil => simp [validPathTail, run_seq, run_byte_nil]
  | cons c title =>
    by_cases hc : c = 47
    · subst hc
      let k : Thread → List Thread := fun u =>
        run .eol { u with caps := (2, title.take (u.pos - (pos + 1))) :: u.caps }
      have hk : ∀ pos c cs caps, isAlnum c = true → k ⟨pos, c :: cs, caps⟩ = [] := by
        intro pos c cs caps _
        simp [k, run_eol]
      have := plusLoop_cls_flatMap isAlnum k hk (title.length + 1) (pos + 1) title caps
        (Nat.lt_succ_self _)
      rw [validPathTail, run_seq, run_byte_cons, if_pos rfl, List.flatMap_cons, List.flatMap_nil,
        List.append_nil, run_seq, run_cap, run_plus, List.flatMap_map]
      show (plusLoop (run (.cls isAlnum)) (title.length + 1) ⟨pos + 1, title, caps⟩).flatMap k = _
      rw [this]
      by_cases ht : title.takeWhile isAlnum = []
      · have : title = [] ∨ title.dropWhile isAlnum ≠ [] := by
          cases title with
          | nil => left; rfl
          | cons y ys =>
            right
            by_cases hy : isAlnum y = true
            · simp [List.takeWhile, hy] at ht
            · simp [List.dropWhile, hy]
        rcases this with h | h <;> simp [ht, h]
      · by_cases hd : title.dropWhile isAlnum = []
        · have htw : title.takeWhile isAlnum = title := by
            have := List.takeWhile_append_dropWhile isAlnum title
            rw [hd, List.append_nil] at this
            exact this
          have hne : title ≠ [] := by rw [htw] at ht; exact ht
          simp [ht, hd, hne, k, run_eol, htw, Nat.add_assoc]
          omega
        · simp [ht, hd, k, run_eol]
    · simp [validPathTail, run_seq, run_byte_cons, hc]

theorem dropWhile_eq_nil_iff_all (title : Bytes) :
    title.dropWhile isAlnum = [] ↔ ∀ x ∈ title, isAlnum x = true := by
  induction title with
  | nil => simp
  | cons y ys ih =>
    by_cases hy : isAlnum y = true
    · simp [List.dropWhile, hy, ih]
    · simp [List.dropWhile, hy]

theorem run_lit (w : Bytes) : ∀ (pos : Nat) (s : Bytes) (caps : List (Nat × Bytes)),
    run (lit w) ⟨pos, s, caps⟩ =
      if w.isPrefixOf s = true then [⟨pos + w.length, s.drop w.length, caps⟩] else [] := by
  induction w with
  | nil => intro pos s caps; simp [lit, run]
  | cons b w ih =>
    intro pos s caps
    cases s with
    | nil => simp [lit, run_seq, run_byte_nil]
    | cons c s =>
      by_cases hc : c = b
      · subst hc
        rw [lit, run_seq, run_byte_cons, if_pos rfl, List.flatMap_cons, List.flatMap_nil,
          List.append_nil, ih]
        simp [List.isPrefixOf, Nat.add_assoc, Nat.add_comm 1]
      · have hb : ¬ b = c := fun e => hc e.symm
        simp [lit, run_seq, run_byte_cons, hc, List.isPrefixOf, hb]

theorem run_validPath_pos (pos : Nat) (s : Bytes) : run validPath ⟨pos + 1, s, []⟩ = [] := by
  simp [validPath, run_seq, run_bol]

theorem search_validPath_pos : ∀ (s : Bytes) (pos : Nat), search validPath (pos + 1) s = none := by
  intro s
  induction s with
  | nil => intro pos; rw [search_nil, run_validPath_pos]; rfl
  | cons c s ih => intro pos; rw [search_cons, run_validPath_pos]; simp [ih]

theorem run_validPathAction (action rest : Bytes)
    (ha : action = bytes "edit" ∨ action = bytes "save" ∨ action = bytes "view") :
    run validPathAction ⟨1, action ++ rest, []⟩ = [⟨5, rest, [(1, action)]⟩] := by
  rcases ha with rfl | rfl | rfl <;>
    simp [validPathAction, run_cap, run_alt, run_lit, bytes, List.isPrefixOf]

theorem mem_run_validPathAction {s : Bytes} {u : Thread}
    (h : u ∈ run validPathAction ⟨1, s, []⟩) :
    ∃ action, (action = bytes "edit" ∨ action = bytes "save" ∨ action = bytes "view") ∧
      s = action ++ u.rest := by
  have hpre : ∀ w : Bytes, w.isPrefixOf s = true → s = w ++ s.drop w.length := by
    intro w hw
    obtain ⟨r, hr⟩ := List.isPrefixOf_iff_prefix.1 hw
    rw [← hr]; simp
  simp only [validPathAction, run_cap, run_alt, run_lit, List.mem_map, List.mem_append] at h
  obtain ⟨v, hv, rfl⟩ := h
  rcases hv with hv | hv | hv
  · refine ⟨bytes "edit", Or.inl rfl, ?_⟩
    split at hv
    · rename_i hw
      simp only [List.mem_singleton] at hv
      subst hv
      exact hpre _ hw
    · cases hv
  · refine ⟨bytes "save", Or.inr (Or.inl rfl), ?_⟩
    split at hv
    · rename_i hw
      simp only [List.mem_singleton] at hv
      subst hv
      exact hpre _ hw
    · cases hv
  · refine ⟨bytes "view", Or.inr (Or.inr rfl), ?_⟩
    split at hv
    · rename_i hw
      simp only [List.mem_singleton] at hv
      subst hv
      exact hpre _ hw
    · cases hv

theorem FindStringSubmatch_validPath_of_shape {p title : Bytes} (h : validShape p title) :
    ∃ action, FindStringSubmatch validPath p = some [p, action, title] := by
  obtain ⟨action, ha, rfl, hne, hall⟩ := h
  refine ⟨action, ?_⟩
  have hd := (dropWhile_eq_nil_iff_all title).2 hall
  have hrun : run validPath ⟨0, 47 :: (action ++ 47 :: title), []⟩ =
      [⟨6 + title.length, [], [(2, title), (1, action)]⟩] := by
    rw [validPath_eq, run_seq, run_bol, if_pos rfl, List.flatMap_cons, List.flatMap_nil,
      List.append_nil, run_seq, run_byte_cons, if_pos rfl, List.flatMap_cons, List.flatMap_nil,
      List.append_nil, run_seq, run_validPathAction action _ ha, List.flatMap_cons,
      List.flatMap_nil, List.append_nil, run_validPathTail]
    simp [hne, hd]
  have hlen : action.length = 4 := by rcases ha with rfl | rfl | rfl <;> rfl
  have hp : bytes "/" ++ action ++ bytes "/" ++ title = 47 :: (action ++ 47 :: title) := by
    simp [bytes]
  rw [hp, FindStringSubmatch, search_cons, hrun]
  have htake : List.take (6 + title.length) (47 :: (action ++ 47 :: title)) =
      47 :: (action ++ 47 :: title) := by
    apply List.take_of_length_le
    simp [hlen]; omega
  simp only [List.head?_cons, Nat.sub_zero, htake, Option.map_some']
  have hns : validPath.numSubexp = 2 := by decide
  rw [hns]
  simp [List.range, List.range.loop, List.lookup]

theorem shape_of_FindStringSubmatch_validPath {p : Bytes}
    (h : FindStringSubmatch validPath p ≠ none) : ∃ title, validShape p title := by
  cases p with
  | nil =>
    exfalso; apply h
    simp [FindStringSubmatch, search_nil, validPath_eq, run_seq, run_bol, run_byte_nil]
  | cons c p1 =>
    have hrun : run validPath ⟨0, c :: p1, []⟩ ≠ [] := by
      intro hr
      apply h
      simp [FindStringSubmatch, search_cons, hr, search_validPath_pos]
    obtain ⟨u, hu⟩ := List.exists_mem_of_ne_nil _ hrun
    rw [validPath_eq, run_seq, run_bol, if_pos rfl, List.flatMap_cons, List.flatMap_nil,
      List.append_nil, run_seq, run_byte_cons] at hu
    by_cases hc : c = 47
    · subst hc
      rw [if_pos rfl, List.flatMap_cons, List.flatMap_nil, List.append_nil, run_seq,
        List.mem_flatMap] at hu
      obtain ⟨v, hv, huv⟩ := hu
      obtain ⟨action, ha, hs⟩ := mem_run_validPathAction hv
      obtain ⟨vpos, vrest, vcaps⟩ := v
      rw [run_validPathTail] at huv
      cases vrest with
      | nil => simp at huv
      | cons d title =>
        simp only at huv
        split at huv
        · rename_i hcond
          obtain ⟨hd47, hne, hdw⟩ := hcond
          subst hd47
          refine ⟨title, action, ha, ?_, hne, (dropWhile_eq_nil_iff_all title).1 hdw⟩
          simp only at hs
          rw [hs]
          simp [bytes]
        · cases huv
    · rw [if_neg hc] at hu
      simp at hu

/-! ## The store: save and load -/

theorem DB.next_healthy {db : DB} (h : db.healthy) :
    ∃ db1, db.next = (false, db1) ∧ db1.rows = db.rows ∧ db1.healthy := by
  obtain ⟨rows, faults⟩ := db
  cases faults with
  | nil => exact ⟨_, rfl, rfl, h⟩
  | cons f fs =>
    have hf : f = false := h f (by simp)
    subst hf
    exact ⟨⟨rows, fs⟩, rfl, rfl, fun g hg => h g (List.mem_cons_of_mem _ hg)⟩

theorem DB.next_rows (db : DB) : db.next.2.rows = db.rows := by
  obtain ⟨rows, faults⟩ := db
  cases faults <;> rfl

theorem Contains_duplicateEntry (k : Bytes) :
    Contains (SqlError.duplicateEntry k).Error (bytes "Duplicate entry") = true := by
  simp [SqlError.Error, bytes, Contains, List.isPrefixOf]

theorem find_after_insert (rows : List (Bytes × Bytes)) (title body : Bytes)
    (h : rows.any (fun row => row.1 = title) = false) :
    (rows ++ [(title, body)]).find? (fun row => row.1 = title) = some (title, body) := by
  induction rows with
  | nil => simp
  | cons row rows ih =>
    simp only [List.any_cons, Bool.or_eq_false_iff, decide_eq_false_iff_not] at h
    simp [List.find?, h.1, ih h.2]

theorem find_after_update (rows : List (Bytes × Bytes)) (title body : Bytes)
    (h : rows.any (fun row => row.1 = title) = true) :
    (rows.map fun row => if row.1 = title then (row.1, body) else row).find?
      (fun row => row.1 = title) = some (title, body) := by
  induction rows with
  | nil => simp at h
  | cons row rows ih =>
    by_cases hr : row.1 = title
    · simp [List.find?, hr]
    · simp only [List.any_cons, Bool.or_eq_true, decide_eq_true_eq, hr, false_or] at h
      simp [List.find?, hr, ih h]

/-- What `save` leaves behind on a healthy store: a healthy store whose first row
for the title carries the saved body. -/
theorem save_healthy (p : Page) {db : DB} (h : db.healthy) :
    (p.save db).2.healthy ∧
      (p.save db).2.rows.find? (fun row => row.1 = p.Title) = some (p.Title, p.Body) := by
  obtain ⟨db1, h1, r1, k1⟩ := DB.next_healthy h
  obtain ⟨db2, h2, r2, k2⟩ := DB.next_healthy k1
  by_cases hex : db2.rows.any (fun row => row.1 = p.Title) = true
  · obtain ⟨db3, h3, r3, k3⟩ := DB.next_healthy k2
    obtain ⟨db4, h4, r4, k4⟩ := DB.next_healthy k3
    have hs : p.save db = (some (.duplicateEntry p.Title),
        { db4 with rows := db4.rows.map fun row =>
            if row.1 = p.Title then (row.1, p.Body) else row }) := by
      simp [Page.save, Prepare, ExecInsert, ExecUpdate, h1, h2, h3, h4, hex,
        Contains_duplicateEntry]
    rw [hs]
    refine ⟨k4, ?_⟩
    apply find_after_update
    rw [r4, r3]; exact hex
  · have hex2 : db2.rows.any (fun row => row.1 = p.Title) = false :=
      Bool.eq_false_iff.2 hex
    have hs : p.save db = (none, { db2 with rows := db2.rows ++ [(p.Title, p.Body)] }) := by
      simp [Page.save, Prepare, ExecInsert, h1, h2, hex2]
    rw [hs]
    exact ⟨k2, find_after_insert _ _ _ hex2⟩

theorem loadPage_healthy {db : DB} (h : db.healthy) (title : Bytes) :
    (loadPage db title).1 =
      match db.rows.find? (fun row => row.1 = title) with
      | some row => .ok { Title := title, Body := row.2, DisplayBody := [] }
      | none => .error .noRows := by
  obtain ⟨db1, h1, r1, -⟩ := DB.next_healthy h
  simp only [loadPage, QueryRowScan, h1, r1]
  cases db.rows.find? (fun row => row.1 = title) <;> rfl

theorem loadPage_rows (db : DB) (title : Bytes) : (loadPage db title).2.rows = db.rows := by
  have := DB.next_rows db
  simp only [loadPage, QueryRowScan]
  rcases hn : db.next with ⟨f, db1⟩
  rw [hn] at this
  cases f
  · simp only
    cases db1.rows.find? (fun row => row.1 = title) <;> exact this
  · exact this

/-- C2: on a store whose statements fail for no reason other than a duplicate
title, whatever the prior rows, after `p.save()` has run `loadPage(p.Title)` returns
the page with that title and exactly the saved body; and after two saves of one
title the load returns the second body. -/
theorem save_load_roundtrip (p : Page) (db : DB) (h : db.healthy) :
    (loadPage (p.save db).2 p.Title).1
        = .ok { Title := p.Title, Body := p.Body, DisplayBody := [] } ∧
      ∀ body2 : Bytes,
        (loadPage (Page.save { p with Body := body2 } (p.save db).2).2 p.Title).1
          = .ok { Title := p.Title, Body := body2, DisplayBody := [] } := by
  have h1 := save_healthy p h
  constructor
  · rw [loadPage_healthy h1.1, h1.2]
  · intro body2
    have h2 := save_healthy { p with Body := body2 } h1.1
    rw [loadPage_healthy h2.1, h2.2]

theorem save_load_roundtrip_witness :
    (DB.healthy ⟨[(bytes "Home", bytes "old")], [false]⟩) ∧
      (loadPage (Page.save ⟨bytes "Home", bytes "new", []⟩
        ⟨[(bytes "Home", bytes "old")], [false]⟩).2 (bytes "Home")).1
        = .ok ⟨bytes "Home", bytes "new", []⟩ :=
  ⟨by simp [DB.healthy],
    (save_load_roundtrip ⟨bytes "Home", bytes "new", []⟩
      ⟨[(bytes "Home", bytes "old")], [false]⟩ (by simp [DB.healthy])).1⟩

/-- C3: saving over an existing page on a working store: the INSERT is rejected
as a duplicate, the fallback UPDATE runs without error and stores the new body,
and `save` still returns the error of the INSERT. -/
theorem save_existing_returns_insert_error :
    Page.save ⟨bytes "A", bytes "y", []⟩ ⟨[(bytes "A", bytes "x")], []⟩ =
      (some (.duplicateEntry (bytes "A")), ⟨[(bytes "A", bytes "y")], []⟩) := by
  decide

/-- A save request for an existing page: the calls `saveHandler` makes are the status
500 error and then, there being no `return` after it, the redirect call as well. -/
theorem saveHandler_error_then_redirect :
    saveHandler [] ⟨bytes "/save/A", [(bytes "body", bytes "y")]⟩ (bytes "A")
        ⟨[(bytes "A", bytes "x")], []⟩ =
      ([.error (SqlError.duplicateEntry (bytes "A")).Error 500,
        .redirect (bytes "/view/A") 302], ⟨[(bytes "A", bytes "y")], []⟩) := by
  decide

/-! ## The display body -/

/-- The response of `viewHandler`: the redirect to the edit page when the load
fails, otherwise the view template executed on the loaded page with `DisplayBody`
set to `displayBody` of its body. -/
theorem viewHandler_response (tm : Templates) (w : ResponseWriter) (r : Request)
    (title : Bytes) (db : DB) :
    (viewHandler tm w r title db).1 =
      match (loadPage db title).1 with
      | .error _ => Redirect w r (bytes "/edit/" ++ title) 302
      | .ok p => renderTemplate tm w (bytes "view") { p with DisplayBody := displayBody p.Body } := by
  rcases hl : loadPage db title with ⟨res, db1⟩
  cases res <;> simp [viewHandler, hl]

/-- C7: the display body contains no bracket token: no substring made of `[`, one
or more ASCII letters or digits, and `]`. In `[[a]]` and `[a][b]` the anchors and
the text around them form no new token. The display body is what `viewHandler` hands
to the view template for a loaded page. -/
theorem displayBody_no_token (body : Bytes) :
    (¬ ∃ a t c, displayBody body = a ++ bytes "[" ++ t ++ bytes "]" ++ c ∧ isToken t) ∧
      displayBody (bytes "[[a]]") = bytes "[" ++ anchor (bytes "a") ++ bytes "]" ∧
      displayBody (bytes "[a][b]") = anchor (bytes "a") ++ anchor (bytes "b") ∧
      ∀ (tm : Templates) (w : ResponseWriter) (r : Request) (title : Bytes) (db : DB),
        (viewHandler tm w r title db).1 =
          match (loadPage db title).1 with
          | .error _ => Redirect w r (bytes "/edit/" ++ title) 302
          | .ok p =>
            renderTemplate tm w (bytes "view") { p with DisplayBody := displayBody p.Body } := by
  refine ⟨?_, by decide, by decide, viewHandler_response⟩
  rintro ⟨a, t, c, h, ht⟩
  have hshape : a ++ bytes "[" ++ t ++ bytes "]" ++ c = a ++ 91 :: (t ++ 93 :: c) := by
    simp [bytes]
  rw [hshape, displayBody_eq] at h
  exact linkify_no_token _ _ (Nat.le_refl _) ⟨a, t, c, h, ht⟩

theorem displayBody_no_token_witness :
    ¬ ∃ a t c, displayBody (bytes "x [[Home]] y") =
      a ++ bytes "[" ++ t ++ bytes "]" ++ c ∧ isToken t :=
  (displayBody_no_token (bytes "x [[Home]] y")).1

/-! ## Routing and the handlers -/

theorem makeHandler_of_shape (fn : ResponseWriter → Request → Bytes → DB → ResponseWriter × DB)
    (w : ResponseWriter) (r : Request) (db : DB) {title : Bytes}
    (h : validShape r.Path title) : makeHandler fn w r db = fn w r title db := by
  obtain ⟨action, ha⟩ := FindStringSubmatch_validPath_of_shape h
  simp [makeHandler, ha]

theorem makeHandler_of_not_shape
    (fn : ResponseWriter → Request → Bytes → DB → ResponseWriter × DB)
    (w : ResponseWriter) (r : Request) (db : DB)
    (h : ¬ ∃ title, validShape r.Path title) : makeHandler fn w r db = (NotFound w r, db) := by
  have : FindStringSubmatch validPath r.Path = none := by
    by_contra hne
    exact h (shape_of_FindStringSubmatch_validPath hne)
  simp [makeHandler, this]

theorem not_shape_of_none {p : Bytes} (h : FindStringSubmatch validPath p = none) :
    ¬ ∃ title, validShape p title := by
  rintro ⟨title, hs⟩
  obtain ⟨action, ha⟩ := FindStringSubmatch_validPath_of_shape hs
  rw [h] at ha
  cases ha

/-- On a successful load `viewHandler` executes the view template on the loaded
page with `DisplayBody` set to `displayBody` of its body. -/
theorem viewHandler_of_loaded (tm : Templates) (w : ResponseWriter) (r : Request)
    (title : Bytes) (db : DB) (p : Page) (h : (loadPage db title).1 = .ok p) :
    (viewHandler tm w r title db).1 =
      renderTemplate tm w (bytes "view") { p with DisplayBody := displayBody p.Body } := by
  rcases hl : loadPage db title with ⟨res, db1⟩
  rw [hl] at h
  simp only at h
  subst h
  simp [viewHandler, hl]

/-- On a working store, saving a title that already has a row updates the row and
returns the duplicate-entry error of the INSERT. -/
theorem save_existing_healthy (p : Page) {db : DB} (h : db.healthy)
    (hex : db.rows.any (fun row => row.1 = p.Title) = true) :
    (p.save db).1 = some (.duplicateEntry p.Title) := by
  obtain ⟨db1, h1, r1, k1⟩ := DB.next_healthy h
  obtain ⟨db2, h2, r2, k2⟩ := DB.next_healthy k1
  obtain ⟨db3, h3, r3, k3⟩ := DB.next_healthy k2
  obtain ⟨db4, h4, r4, k4⟩ := DB.next_healthy k3
  have hex2 : db2.rows.any (fun row => row.1 = p.Title) = true := by rw [r2, r1]; exact hex
  simp [Page.save, Prepare, ExecInsert, ExecUpdate, h1, h2, h3, h4, hex2,
    Contains_duplicateEntry]

/-- Whatever `save` returns, the last call `saveHandler` makes is the redirect to the
view page; after a failed save it directly follows the status 500 error. -/
theorem saveHandler_response (w : ResponseWriter) (r : Request) (title : Bytes) (db : DB) :
    (saveHandler w r title db).1 =
      match (Page.save ⟨title, r.FormValue (bytes "body"), []⟩ db).1 with
      | some err => w ++ [.error err.Error 500, .redirect (bytes "/view/" ++ title) 302]
      | none => w ++ [.redirect (bytes "/view/" ++ title) 302] := by
  rcases hs : Page.save ⟨title, r.FormValue (bytes "body"), []⟩ db with ⟨res, db1⟩
  cases res <;> simp [saveHandler, hs, Redirect, Error]

/-- C4: the response `saveHandler` sends (on the fresh writer of a request) is a
redirect to `"/view/" + title` if and only if `save` succeeded: after a successful
save it is the 302 redirect to that path; when `save` returns an error it has
status 500, carries the error text and is no redirect (the redirect call the
handler still makes comes after the header was written and changes nothing of
what is sent). -/
theorem saveHandler_answer (r : Request) (title : Bytes) (db : DB) :
    ((∃ s, sent (saveHandler [] r title db).1 = some s ∧
        s.redirect = some (bytes "/view/" ++ title)) ↔
      (Page.save ⟨title, r.FormValue (bytes "body"), []⟩ db).1 = none) ∧
    ((Page.save ⟨title, r.FormValue (bytes "body"), []⟩ db).1 = none →
      sent (saveHandler [] r title db).1 =
        some ⟨302, some (bytes "/view/" ++ title), []⟩) ∧
    (∀ err, (Page.save ⟨title, r.FormValue (bytes "body"), []⟩ db).1 = some err →
      sent (saveHandler [] r title db).1 = some ⟨500, none, err.Error ++ [10]⟩) := by
  rw [saveHandler_response]
  cases hs : (Page.save ⟨title, r.FormValue (bytes "body"), []⟩ db).1 with
  | none => simp [sent, errorTexts]
  | some err => simp [sent, errorTexts]

theorem saveHandler_answer_witness :
    ((Page.save ⟨bytes "A", Request.FormValue ⟨bytes "/save/A", [(bytes "body", bytes "y")]⟩
          (bytes "body"), []⟩ ⟨[], []⟩).1 = none ∧
      sent (saveHandler [] ⟨bytes "/save/A", [(bytes "body", bytes "y")]⟩ (bytes "A")
          ⟨[], []⟩).1 = some ⟨302, some (bytes "/view/" ++ bytes "A"), []⟩) ∧
    ((Page.save ⟨bytes "A", Request.FormValue ⟨bytes "/save/A", [(bytes "body", bytes "y")]⟩
          (bytes "body"), []⟩ ⟨[], [true]⟩).1 = some .unavailable ∧
      sent (saveHandler [] ⟨bytes "/save/A", [(bytes "body", bytes "y")]⟩ (bytes "A")
          ⟨[], [true]⟩).1 = some ⟨500, none, SqlError.unavailable.Error ++ [10]⟩) :=
  ⟨⟨by decide,
      (saveHandler_answer ⟨bytes "/save/A", [(bytes "body", bytes "y")]⟩ (bytes "A")
        ⟨[], []⟩).2.1 (by decide)⟩,
    ⟨by decide,
      (saveHandler_answer ⟨bytes "/save/A", [(bytes "body", bytes "y")]⟩ (bytes "A")
        ⟨[], [true]⟩).2.2 .unavailable (by decide)⟩⟩

/-- C1: the handler built by `makeHandler(fn)` runs `fn`, once and with the title,
exactly when the path is `"/" + action + "/" + title` with `action` one of edit,
save, view and `title` a non-empty string of ASCII letters and digits; on every
other path it answers "not found" whatever `fn` is. `/view/Foo` dispatches with
title `Foo`; `/view/Foo Bar`, `/view/`, `/view/Foo/` and `/view/Foo` followed by a
newline are rejected. "Not found" is the status 404 error written by `http.NotFound`. -/
theorem makeHandler_dispatch
    (fn : ResponseWriter → Request → Bytes → DB → ResponseWriter × DB)
    (w : ResponseWriter) (r : Request) (db : DB) :
    (∀ title, validShape r.Path title → makeHandler fn w r db = fn w r title db) ∧
      ((¬ ∃ title, validShape r.Path title) → makeHandler fn w r db = (NotFound w r, db)) ∧
      (∀ form, makeHandler fn w ⟨bytes "/view/Foo", form⟩ db =
        fn w ⟨bytes "/view/Foo", form⟩ (bytes "Foo") db) ∧
      (∀ p form, p ∈ [bytes "/view/Foo Bar", bytes "/view/", bytes "/view/Foo/",
          bytes "/view/Foo" ++ [10]] →
        makeHandler fn w ⟨p, form⟩ db = (NotFound w ⟨p, form⟩, db)) ∧
      NotFound w r = w ++ [.error (bytes "404 page not found") 404] := by
  refine ⟨fun title h => makeHandler_of_shape fn w r db h,
    makeHandler_of_not_shape fn w r db, ?_, ?_, rfl⟩
  · intro form
    have : FindStringSubmatch validPath (bytes "/view/Foo") =
        some [bytes "/view/Foo", bytes "view", bytes "Foo"] := by decide
    simp [makeHandler, this]
  · intro p form hp
    have : FindStringSubmatch validPath p = none := by
      simp only [List.mem_cons, List.mem_singleton, List.not_mem_nil, or_false] at hp
      rcases hp with rfl | rfl | rfl | rfl <;> decide
    simp [makeHandler, this]

theorem makeHandler_dispatch_witness :
    (validShape (bytes "/edit/Page2") (bytes "Page2") ∧
      makeHandler saveHandler [] ⟨bytes "/edit/Page2", []⟩ ⟨[], []⟩ =
        saveHandler [] ⟨bytes "/edit/Page2", []⟩ (bytes "Page2") ⟨[], []⟩) ∧
    ((¬ ∃ title, validShape (bytes "/delete/Foo") title) ∧
      makeHandler saveHandler [] ⟨bytes "/delete/Foo", []⟩ ⟨[], []⟩ =
        (NotFound [] ⟨bytes "/delete/Foo", []⟩, ⟨[], []⟩)) :=
  ⟨⟨⟨bytes "edit", Or.inl rfl, by decide, by simp [isToken, bytes, isAlnum]⟩,
      (makeHandler_dispatch saveHandler [] ⟨bytes "/edit/Page2", []⟩ ⟨[], []⟩).1 (bytes "Page2")
        ⟨bytes "edit", Or.inl rfl, by decide, by simp [isToken, bytes, isAlnum]⟩⟩,
    ⟨not_shape_of_none (by decide),
      (makeHandler_dispatch saveHandler [] ⟨bytes "/delete/Foo", []⟩ ⟨[], []⟩).2.1
        (not_shape_of_none (by decide))⟩⟩

/-- C9 (as stated, refuted): with the backend unavailable `loadPage` fails with an
error other than the not-found one, yet `viewHandler` answers with the redirect to
the edit page and `editHandler` renders the edit form of an empty page. -/
theorem load_failure_not_surfaced :
    (loadPage ⟨[(bytes "A", bytes "x")], [true]⟩ (bytes "A")).1 = .error .unavailable ∧
      (viewHandler plainTemplates [] ⟨bytes "/view/A", []⟩ (bytes "A")
        ⟨[(bytes "A", bytes "x")], [true]⟩).1 = [.redirect (bytes "/edit/A") 302] ∧
      (editHandler plainTemplates [] ⟨bytes "/edit/A", []⟩ (bytes "A")
        ⟨[(bytes "A", bytes "x")], [true]⟩).1 =
          [.execute (bytes "edit.html") ⟨bytes "A", [], []⟩] := by
  refine ⟨rfl, by decide, by decide⟩

/-- C9 (amended): whenever `loadPage` fails, for whatever reason, `viewHandler` answers
with the redirect to `"/edit/" + title` and `editHandler` renders the edit template
on an empty page with that title. -/
theorem load_failure_handled_as_missing (tm : Templates) (w : ResponseWriter) (r : Request)
    (title : Bytes) (db : DB) (e : SqlError) (h : (loadPage db title).1 = .error e) :
    (viewHandler tm w r title db).1 = Redirect w r (bytes "/edit/" ++ title) 302 ∧
      (editHandler tm w r title db).1 =
        renderTemplate tm w (bytes "edit") { Title := title, Body := [], DisplayBody := [] } := by
  rcases hl : loadPage db title with ⟨res, db1⟩
  rw [hl] at h
  simp only at h
  subst h
  simp [viewHandler, editHandler, hl]

theorem load_failure_handled_as_missing_witness :
    (loadPage ⟨[(bytes "A", bytes "x")], [true]⟩ (bytes "A")).1 = .error .unavailable ∧
      (viewHandler plainTemplates [] ⟨bytes "/view/A", []⟩ (bytes "A")
        ⟨[(bytes "A", bytes "x")], [true]⟩).1 =
          Redirect [] ⟨bytes "/view/A", []⟩ (bytes "/edit/" ++ bytes "A") 302 :=
  ⟨rfl,
    (load_failure_handled_as_missing plainTemplates [] ⟨bytes "/view/A", []⟩ (bytes "A")
      ⟨[(bytes "A", bytes "x")], [true]⟩ .unavailable rfl).1⟩

theorem find_none_of_absent (rows : List (Bytes × Bytes)) (title : Bytes)
    (h : ∀ row ∈ rows, row.1 ≠ title) : rows.find? (fun row => row.1 = title) = none := by
  rw [List.find?_eq_none]
  intro row hr
  simpa using h row hr

/-- C10: for a title with no row in the store, `loadPage` (its query running on a
working store) returns no page and the not-found error; and `viewHandler` for that
title answers with exactly the redirect to `"/edit/" + title`, executing no
template and leaving the rows of the store as they were. -/
theorem view_missing_redirects (title : Bytes) (db : DB)
    (habsent : ∀ row ∈ db.rows, row.1 ≠ title) :
    (db.healthy → (loadPage db title).1 = .error .noRows) ∧
      ∀ (tm : Templates) (w : ResponseWriter) (r : Request),
        (viewHandler tm w r title db).1 = w ++ [.redirect (bytes "/edit/" ++ title) 302] ∧
          (viewHandler tm w r title db).2.rows = db.rows := by
  have hfind := find_none_of_absent db.rows title habsent
  constructor
  · intro hh
    rw [loadPage_healthy hh, hfind]
  · intro tm w r
    have hrows := loadPage_rows db title
    have herr : ∃ e, (loadPage db title).1 = .error e := by
      have hn := DB.next_rows db
      simp only [loadPage, QueryRowScan]
      rcases hnx : db.next with ⟨f, db1⟩
      rw [hnx] at hn
      simp only at hn
      cases f
      · simp only [hn, hfind]; exact ⟨_, rfl⟩
      · exact ⟨_, rfl⟩
    obtain ⟨e, he⟩ := herr
    rcases hl : loadPage db title with ⟨res, db1⟩
    rw [hl] at he hrows
    simp only at he hrows
    subst he
    simp [viewHandler, hl, Redirect, hrows]

theorem view_missing_redirects_witness :
    (∀ row ∈ (⟨[(bytes "Home", bytes "hi")], []⟩ : DB).rows, row.1 ≠ bytes "Other") ∧
      (DB.healthy ⟨[(bytes "Home", bytes "hi")], []⟩ ∧
        (loadPage ⟨[(bytes "Home", bytes "hi")], []⟩ (bytes "Other")).1 = .error .noRows) ∧
      (viewHandler plainTemplates [] ⟨bytes "/view/Other", []⟩ (bytes "Other")
        ⟨[(bytes "Home", bytes "hi")], []⟩).1 =
          [] ++ [.redirect (bytes "/edit/" ++ bytes "Other") 302] :=
  ⟨by decide,
    ⟨by simp [DB.healthy],
      (view_missing_redirects (bytes "Other") ⟨[(bytes "Home", bytes "hi")], []⟩ (by decide)).1
        (by simp [DB.healthy])⟩,
    ((view_missing_redirects (bytes "Other") ⟨[(bytes "Home", bytes "hi")], []⟩ (by decide)).2
      plainTemplates [] ⟨bytes "/view/Other", []⟩).1⟩

end GoWiki
